import Mathlib

/-!
Verification of the graph-execution engine specified for the langgraph
example notebooks, together with the helper functions that appear
verbatim in the sources (`should_continue`, `_swap_roles`, and the graph
wiring of the chat-bot simulation).

The engine itself (state schema, merge engine, execution engine, step
stream, validation) is not shipped in the example sources; it is
modelled here from the specification, while the message-level helper
functions are translated directly from the notebook code.
-/

namespace LangGraph

/-- Values stored in a state snapshot.  Sequences (`seq`) are the values
Append-strategy fields hold; scalar values cover the rest. -/
inductive Value where
  | str (s : String)
  | nat (n : Nat)
  | seq (xs : List Value)

/-- Modelled from the spec: per-field merge strategy, one of Overwrite
or Append (spec 3, Field Descriptor). -/
inductive Strategy where
  | Overwrite
  | Append
deriving DecidableEq

/-- Modelled from the spec: a Field Descriptor declares a field name and
its merge strategy. -/
structure FieldDescriptor where
  name : String
  strategy : Strategy

/-- Modelled from the spec: a State Schema is the list of declared field
descriptors. -/
def Schema := List FieldDescriptor

/-- Modelled from the spec: fields not declared in the schema are
treated as Overwrite by default; explicit entries take precedence
(spec 4.2). -/
def strategyOf : Schema → String → Strategy
  | [], _ => Strategy.Overwrite
  | d :: rest, f => if d.name = f then d.strategy else strategyOf rest f

/-- A State Snapshot: a mapping from field name to value; `none` means
the field is unset (an unseen Append field reads as the empty
sequence). -/
def Snapshot := String → Option Value

/-- A node's partial result: the subset of fields it returns, as an
association list in the order the node returned them. -/
def PartResult := List (String × Value)

/-- Elements a returned value contributes to an Append field: a
sequence contributes its elements, a scalar contributes itself (the
MessageGraph convention of coercing a single message to a one-element
list). -/
def toElems : Value → List Value
  | Value.seq xs => xs
  | v => [v]

/-- The existing sequence elements of a possibly-unset field: an unseen
Append field starts as the empty sequence (spec 3). -/
def oldElems : Option Value → List Value
  | none => []
  | some (Value.seq xs) => xs
  | some v => [v]

/-- Modelled from the spec: merge one returned field value into the
snapshot per its declared strategy — Overwrite replaces, Append
concatenates the new elements after the existing ones (spec 4.2). -/
def mergeField (schema : Schema) (s : Snapshot) (f : String) (v : Value) : Value :=
  match strategyOf schema f with
  | Strategy.Overwrite => v
  | Strategy.Append => Value.seq (oldElems (s f) ++ toElems v)

/-- Point update of a snapshot at one field. -/
def updateField (schema : Schema) (s : Snapshot) (f : String) (v : Value) : Snapshot :=
  fun x => if x = f then some (mergeField schema s f v) else s x

/-- Modelled from the spec: the Merge Engine folds a node's partial
result into the snapshot field by field, in the order the node returned
them; fields absent from the partial result pass through unchanged
(spec 4.2). -/
def mergeResult (schema : Schema) (s : Snapshot) : PartResult → Snapshot
  | [] => s
  | (f, v) :: rest => mergeResult schema (updateField schema s f v) rest

/-- All elements a partial result contributes to a given Append field,
in order. -/
def contribElems (f : String) : PartResult → List Value
  | [] => []
  | (g, v) :: rest => (if g = f then toElems v else []) ++ contribElems f rest

/-- The last value a partial result writes to a given field, if any. -/
def lastWrite? (f : String) : PartResult → Option Value
  | [] => none
  | (g, v) :: rest =>
      match lastWrite? f rest with
      | some w => some w
      | none => if g = f then some v else none

/-- Modelled from the spec: an edge target is a registered node name or
the terminal sentinel (spec 3, Edge). -/
inductive Target where
  | node (name : String)
  | terminal
deriving DecidableEq

/-- Lookup in an association list keyed by strings (the flat lookup
structures of the Graph Definition, spec design note). -/
def lookupAssoc {α : Type} : List (String × α) → String → Option α
  | [], _ => none
  | (k, v) :: rest, key => if k = key then some v else lookupAssoc rest key

/-- Modelled from the spec: a conditional edge holds a router
`Snapshot → label` (fallible, `none` models a router failure) and a
label-to-target mapping (spec 3, Conditional Edge). -/
structure CondEdge where
  router : Snapshot → Option String
  mapping : List (String × Target)

/-- Modelled from the spec: a Graph Definition registers nodes (each a
fallible transform from snapshot to partial result), static edges,
conditional edges, and an entry point (spec 3, Graph Definition). -/
structure Graph where
  nodes : List (String × (Snapshot → Option PartResult))
  edges : List (String × Target)
  condEdges : List (String × CondEdge)
  entryPoint : Option String

/-- Modelled from the spec: runtime error taxonomy of the execution
engine (spec 7). -/
inductive RunError where
  | nodeExecutionError (node : String)
  | routerLabelError (node : String) (label : String)
  | deadEndError (node : String)
  | iterationLimitExceeded (steps : Nat)
deriving DecidableEq

/-- Modelled from the spec: validation error taxonomy of the Graph
Definition (spec 4.1). -/
inductive GraphError where
  | unknownNode (name : String)
  | duplicateNode (name : String)
  | missingEntryPoint
  | ambiguousRouting (node : String)
deriving DecidableEq

/-- Whether a node name is registered in the graph. -/
def isRegistered (g : Graph) (n : String) : Bool :=
  (lookupAssoc g.nodes n).isSome

/-- Modelled from the spec: resolve the next state after a node ran —
static edge target if one exists, else the conditional edge's router
applied to the just-merged snapshot (a router failure is a
NodeExecutionError, an unmapped label a RouterLabelError), else
DeadEndError (spec 4.3 step 3). -/
def resolveNext (g : Graph) (cur : String) (merged : Snapshot) : Except RunError Target :=
  match lookupAssoc g.edges cur with
  | some t => Except.ok t
  | none =>
    match lookupAssoc g.condEdges cur with
    | some ce =>
      match ce.router merged with
      | none => Except.error (RunError.nodeExecutionError cur)
      | some lab =>
        match lookupAssoc ce.mapping lab with
        | some t => Except.ok t
        | none => Except.error (RunError.routerLabelError cur lab)
    | none => Except.error (RunError.deadEndError cur)

/-- Modelled from the spec: a step event carries the executed node's
name and its partial state contribution (spec 4.4). -/
structure StepEvent where
  node : String
  pr : PartResult

/-- Modelled from the spec: a run's outcome — the final merged snapshot
on success, or the aborting runtime error (spec 4.3, 7). -/
inductive FinalEvent where
  | finished (finalSnap : Snapshot)
  | failed (err : RunError)

/-- The full observable trace of a run: the step events in order,
followed by the outcome. -/
structure RunTrace where
  events : List StepEvent
  outcome : FinalEvent

/-- Modelled from the spec: the execution engine's driver loop. Each
step invokes the current node (failure aborts as NodeExecutionError),
merges its result, resolves the next state, and either finishes at
TERMINAL, aborts on a routing error, or advances with the step counter
incremented; running out of the configured cap aborts with
IterationLimitExceeded carrying the step count (spec 4.3). -/
def loop (g : Graph) (schema : Schema) : Nat → Snapshot → String → Nat → RunTrace
  | 0, _, _, steps => ⟨[], FinalEvent.failed (RunError.iterationLimitExceeded steps)⟩
  | fuel + 1, s, cur, steps =>
    match lookupAssoc g.nodes cur with
    | none => ⟨[], FinalEvent.failed (RunError.nodeExecutionError cur)⟩
    | some nodeFn =>
      match nodeFn s with
      | none => ⟨[], FinalEvent.failed (RunError.nodeExecutionError cur)⟩
      | some pr =>
        let s' := mergeResult schema s pr
        match resolveNext g cur s' with
        | Except.error e => ⟨[⟨cur, pr⟩], FinalEvent.failed e⟩
        | Except.ok Target.terminal => ⟨[⟨cur, pr⟩], FinalEvent.finished s'⟩
        | Except.ok (Target.node nxt) =>
          let rest := loop g schema fuel s' nxt (steps + 1)
          ⟨⟨cur, pr⟩ :: rest.events, rest.outcome⟩

/-- Modelled from the spec: `run(initial State)` starts the engine at
the entry point with a fresh step counter and the configured cap
(spec 6, Run entry points). -/
def run (g : Graph) (schema : Schema) (cap : Nat) (init : Snapshot) : RunTrace :=
  match g.entryPoint with
  | none => ⟨[], FinalEvent.failed (RunError.nodeExecutionError "")⟩
  | some e => loop g schema cap init e 0

/-- Modelled from the spec: the loop of `runToCompletion`, which drives
the engine without retaining intermediate events (spec 6). -/
def runToCompletionLoop (g : Graph) (schema : Schema) :
    Nat → Snapshot → String → Nat → Except RunError Snapshot
  | 0, _, _, steps => Except.error (RunError.iterationLimitExceeded steps)
  | fuel + 1, s, cur, steps =>
    match lookupAssoc g.nodes cur with
    | none => Except.error (RunError.nodeExecutionError cur)
    | some nodeFn =>
      match nodeFn s with
      | none => Except.error (RunError.nodeExecutionError cur)
      | some pr =>
        let s' := mergeResult schema s pr
        match resolveNext g cur s' with
        | Except.error e => Except.error e
        | Except.ok Target.terminal => Except.ok s'
        | Except.ok (Target.node nxt) => runToCompletionLoop g schema fuel s' nxt (steps + 1)

/-- Modelled from the spec: `runToCompletion(initial State)` returns
the final state, discarding intermediate events (spec 6). -/
def runToCompletion (g : Graph) (schema : Schema) (cap : Nat) (init : Snapshot) :
    Except RunError Snapshot :=
  match g.entryPoint with
  | none => Except.error (RunError.nodeExecutionError "")
  | some e => runToCompletionLoop g schema cap init e 0

/-- Modelled from the spec: an element of the Step Stream — a per-step
event with the executed node's name and partial contribution, or the
final event carrying the complete final snapshot (spec 4.4). -/
inductive StreamEvent where
  | step (node : String) (pr : PartResult)
  | final (snap : Snapshot)

/-- Modelled from the spec: the Step Stream of a run — all step events
in order, followed by the final event when the run reaches TERMINAL; a
failed run's stream ends after the events already produced (spec 4.4,
7). -/
def streamEvents (g : Graph) (schema : Schema) (cap : Nat) (init : Snapshot) :
    List StreamEvent :=
  let t := run g schema cap init
  match t.outcome with
  | FinalEvent.finished sf =>
      t.events.map (fun ev => StreamEvent.step ev.node ev.pr) ++ [StreamEvent.final sf]
  | FinalEvent.failed _ =>
      t.events.map (fun ev => StreamEvent.step ev.node ev.pr)

/-- The registered node names, in registration order. -/
def nodeNames (g : Graph) : List String := g.nodes.map Prod.fst

/-- First name registered more than once, if any. -/
def findDuplicate : List String → Option String
  | [] => none
  | n :: rest => if rest.contains n then some n else findDuplicate rest

/-- Whether an edge target references a registered node or the terminal
sentinel. -/
def targetOk (g : Graph) : Target → Bool
  | Target.terminal => true
  | Target.node n => isRegistered g n

/-- Modelled from the spec: first node that has both a static and a
conditional outgoing edge, if any (the AmbiguousRoutingError check,
spec 4.1). -/
def findAmbiguous (g : Graph) : Option String :=
  g.condEdges.findSome? fun ce =>
    if (lookupAssoc g.edges ce.1).isSome then some ce.1 else none

/-- First name referenced by an edge or conditional-edge mapping that
is neither a registered node nor the terminal sentinel, if any. -/
def findUnknown (g : Graph) : Option String :=
  (g.edges.findSome? fun e =>
    if !isRegistered g e.1 then some e.1
    else match e.2 with
      | Target.node t => if !isRegistered g t then some t else none
      | Target.terminal => none) <|>
  (g.condEdges.findSome? fun ce =>
    if !isRegistered g ce.1 then some ce.1
    else ce.2.mapping.findSome? fun m =>
      match m.2 with
      | Target.node t => if !isRegistered g t then some t else none
      | Target.terminal => none)

/-- Modelled from the spec: validation of a Graph Definition — pure,
never invokes node or router code; fails with AmbiguousRoutingError,
DuplicateNodeError, MissingEntryPointError (unset or unregistered
entry), or UnknownNodeError (spec 4.1). -/
def validate (g : Graph) : Except GraphError Unit :=
  match findAmbiguous g with
  | some n => Except.error (GraphError.ambiguousRouting n)
  | none =>
    match findDuplicate (nodeNames g) with
    | some n => Except.error (GraphError.duplicateNode n)
    | none =>
      match g.entryPoint with
      | none => Except.error GraphError.missingEntryPoint
      | some e =>
        if !isRegistered g e then Except.error GraphError.missingEntryPoint
        else
          match findUnknown g with
          | some n => Except.error (GraphError.unknownNode n)
          | none => Except.ok ()

end LangGraph

namespace Simulation

/-- Chat messages as used by the simulation notebook: AI, human, and
system messages, each carrying its content string. -/
inductive Message where
  | ai (content : String)
  | human (content : String)
  | system (content : String)
deriving DecidableEq

/-- The `.content` attribute of a message. -/
def content : Message → String
  | Message.ai c => c
  | Message.human c => c
  | Message.system c => c

/-- Whether a message is an `AIMessage` (`isinstance(m, AIMessage)`). -/
def isAI : Message → Bool
  | Message.ai _ => true
  | _ => false

/-- Translated from the source: `should_continue(messages)` returns
"end" when the list has more than 6 messages or the last message's
content is "FINISHED", and "continue" otherwise; indexing
`messages[-1]` on an empty list raises, modelled as `none`. -/
def should_continue (messages : List Message) : Option String :=
  if messages.length > 6 then some "end"
  else
    match messages.getLast? with
    | none => none
    | some m => if content m = "FINISHED" then some "end" else some "continue"

/-- Translated from the source: `_swap_roles(messages)` maps every
`AIMessage` to a `HumanMessage` with the same content and every other
message to an `AIMessage` with the same content. -/
def _swap_roles (messages : List Message) : List Message :=
  messages.map fun m =>
    if isAI m then Message.human (content m) else Message.ai (content m)

/-- Whether a message is a `HumanMessage`. -/
def isHuman : Message → Bool
  | Message.human _ => true
  | _ => false

/-- The conditional-edge mapping of the simulation graph, as registered
by `add_conditional_edges` in the source: "end" goes to the terminal
sentinel, "continue" goes back to the chat bot. -/
def simulationMapping : List (String × LangGraph.Target) :=
  [("end", LangGraph.Target.terminal), ("continue", LangGraph.Target.node "chat_bot")]

/-- The simulation graph's shape with a router that never returns the
terminating label: two nodes in a cycle ("chat_bot" has a static edge
to "user", "user" routes conditionally), entry at "chat_bot". Node
transforms contribute nothing so only the control flow matters. -/
def cycleGraph : LangGraph.Graph :=
  { nodes := [("user", fun _ => some []), ("chat_bot", fun _ => some [])]
    edges := [("chat_bot", LangGraph.Target.node "user")]
    condEdges :=
      [("user", { router := fun _ => some "continue", mapping := simulationMapping })]
    entryPoint := some "chat_bot" }

end Simulation

namespace LangGraph

/-- The last value written to a field across a run's step events: the
value from the last executed node whose partial result contained the
field (and the last entry for it within that partial result). -/
def runLastWrite? (f : String) : List StepEvent → Option Value
  | [] => none
  | ev :: rest =>
      match runLastWrite? f rest with
      | some w => some w
      | none => lastWrite? f ev.pr

/-- A run outcome as the result of `runToCompletion`: the final
snapshot on success, the aborting error otherwise. -/
def outcomeToExcept : FinalEvent → Except RunError Snapshot
  | FinalEvent.finished sf => Except.ok sf
  | FinalEvent.failed e => Except.error e

/-- Folding a run's step events over an initial snapshot with the Merge
Engine: the snapshot obtained by replaying every recorded merge. -/
def replayEvents (schema : Schema) (evs : List StepEvent) (s : Snapshot) : Snapshot :=
  evs.foldl (fun a ev => mergeResult schema a ev.pr) s

/-- The all-unset snapshot. -/
def emptySnap : Snapshot := fun _ => none

/-- Example schema: one declared Append field "log"; everything else
defaults to Overwrite. -/
def schemaW : Schema := [⟨"log", Strategy.Append⟩]

/-- Example partial result: one element for the Append field "log" and
a value for the Overwrite field "out". -/
def prW : PartResult :=
  [("log", Value.seq [Value.nat 1]), ("out", Value.str "done")]

/-- Example single-node graph: node "n" contributes `prW` and its
router always terminates. -/
def gW : Graph :=
  { nodes := [("n", fun _ => some prW)]
    edges := []
    condEdges :=
      [("n", { router := fun _ => some "end", mapping := [("end", Target.terminal)] })]
    entryPoint := some "n" }

/-- Example initial snapshot: the Append field "log" starts as the
empty sequence. -/
def initW : Snapshot :=
  fun x => if x = "log" then some (Value.seq []) else none

/-- The snapshot after running `gW` from `initW`. -/
def sfW : Snapshot :=
  fun x =>
    if x = "out" then some (Value.str "done")
    else if x = "log" then some (Value.seq [Value.nat 1])
    else initW x

/-- Example graph whose router returns a label missing from its
mapping. -/
def gBad : Graph :=
  { nodes := [("n", fun _ => some [])]
    edges := []
    condEdges :=
      [("n", { router := fun _ => some "oops", mapping := [("end", Target.terminal)] })]
    entryPoint := some "n" }

/-- Example graph in which node "a" has both a static edge and a
conditional edge. -/
def gAmb : Graph :=
  { nodes := [("a", fun _ => some [])]
    edges := [("a", Target.terminal)]
    condEdges :=
      [("a", { router := fun _ => some "end", mapping := [("end", Target.terminal)] })]
    entryPoint := some "a" }

end LangGraph

namespace LangGraph

theorem mergeResult_notMem (schema : Schema) :
    ∀ (pr : PartResult) (s : Snapshot) (x : String),
      x ∉ pr.map Prod.fst → mergeResult schema s pr x = s x := by
  intro pr
  induction pr with
  | nil => intro s x _; rfl
  | cons hd rest ih =>
      intro s x h
      obtain ⟨f, v⟩ := hd
      simp only [List.map_cons, List.mem_cons, not_or] at h
      show mergeResult schema (updateField schema s f v) rest x = s x
      rw [ih _ _ h.2]
      simp [updateField, h.1]

theorem mergeResult_append_field (schema : Schema) (f : String)
    (hstrat : strategyOf schema f = Strategy.Append) :
    ∀ (pr : PartResult) (s : Snapshot) (xs : List Value),
      s f = some (Value.seq xs) →
      mergeResult schema s pr f = some (Value.seq (xs ++ contribElems f pr)) := by
  intro pr
  induction pr with
  | nil => intro s xs hs; simpa [mergeResult, contribElems] using hs
  | cons hd rest ih =>
      intro s xs hs
      obtain ⟨g, v⟩ := hd
      show mergeResult schema (updateField schema s g v) rest f = _
      by_cases hgf : g = f
      · subst hgf
        have hupd : updateField schema s g v g = some (Value.seq (xs ++ toElems v)) := by
          simp [updateField, mergeField, hstrat, hs, oldElems]
        rw [ih _ _ hupd]
        simp [contribElems, List.append_assoc]
      · have hupd : updateField schema s g v f = some (Value.seq xs) := by
          simp [updateField, Ne.symm hgf, hs]
        rw [ih _ _ hupd]
        simp [contribElems, hgf]

theorem mergeResult_overwrite_field (schema : Schema) (f : String)
    (hstrat : strategyOf schema f = Strategy.Overwrite) :
    ∀ (pr : PartResult) (s : Snapshot),
      mergeResult schema s pr f =
        match lastWrite? f pr with
        | some w => some w
        | none => s f := by
  intro pr
  induction pr with
  | nil => intro s; rfl
  | cons hd rest ih =>
      intro s
      obtain ⟨g, v⟩ := hd
      show mergeResult schema (updateField schema s g v) rest f = _
      rw [ih]
      cases hlw : lastWrite? f rest with
      | some w => simp [lastWrite?, hlw]
      | none =>
          by_cases hgf : g = f
          · subst hgf
            simp [lastWrite?, hlw, updateField, mergeField, hstrat]
          · simp [lastWrite?, hlw, updateField, Ne.symm hgf, hgf]

theorem replay_append_field (schema : Schema) (f : String)
    (hstrat : strategyOf schema f = Strategy.Append) :
    ∀ (evs : List StepEvent) (s : Snapshot) (xs : List Value),
      s f = some (Value.seq xs) →
      replayEvents schema evs s f =
        some (Value.seq (xs ++ (evs.map fun ev => contribElems f ev.pr).flatten)) := by
  intro evs
  induction evs with
  | nil => intro s xs hs; simpa [replayEvents] using hs
  | cons ev rest ih =>
      intro s xs hs
      have h1 := mergeResult_append_field schema f hstrat ev.pr s xs hs
      have h2 := ih (mergeResult schema s ev.pr) (xs ++ contribElems f ev.pr) h1
      simpa [replayEvents, List.flatten_cons, List.append_assoc] using h2

theorem replay_overwrite_field (schema : Schema) (f : String)
    (hstrat : strategyOf schema f = Strategy.Overwrite) :
    ∀ (evs : List StepEvent) (s : Snapshot),
      replayEvents schema evs s f =
        match runLastWrite? f evs with
        | some w => some w
        | none => s f := by
  intro evs
  induction evs with
  | nil => intro s; rfl
  | cons ev rest ih =>
      intro s
      show replayEvents schema rest (mergeResult schema s ev.pr) f = _
      rw [ih]
      cases hlw : runLastWrite? f rest with
      | some w => simp [runLastWrite?, hlw]
      | none =>
          simp only [runLastWrite?, hlw]
          exact mergeResult_overwrite_field schema f hstrat ev.pr s

theorem loop_finished_replay (g : Graph) (schema : Schema) :
    ∀ (fuel : Nat) (s : Snapshot) (cur : String) (steps : Nat)
      (evs : List StepEvent) (sf : Snapshot),
      loop g schema fuel s cur steps = ⟨evs, FinalEvent.finished sf⟩ →
      sf = replayEvents schema evs s := by
  intro fuel
  induction fuel with
  | zero =>
      intro s cur steps evs sf h
      simp [loop] at h
  | succ fuel ih =>
      intro s cur steps evs sf h
      simp only [loop] at h
      cases hnode : lookupAssoc g.nodes cur with
      | none => rw [hnode] at h; simp at h
      | some nodeFn =>
          rw [hnode] at h; dsimp only at h
          cases hpr : nodeFn s with
          | none => rw [hpr] at h; simp at h
          | some pr =>
              rw [hpr] at h; dsimp only at h
              cases hres : resolveNext g cur (mergeResult schema s pr) with
              | error e => rw [hres] at h; simp at h
              | ok t =>
                  rw [hres] at h
                  cases t with
                  | terminal =>
                      dsimp only at h
                      simp only [RunTrace.mk.injEq, FinalEvent.finished.injEq] at h
                      obtain ⟨hev, hsf⟩ := h
                      subst hev
                      rw [← hsf]
                      rfl
                  | node nxt =>
                      dsimp only at h
                      simp only [RunTrace.mk.injEq] at h
                      obtain ⟨hev, hout⟩ := h
                      subst hev
                      have hrec : loop g schema fuel (mergeResult schema s pr) nxt (steps + 1) =
                          ⟨(loop g schema fuel (mergeResult schema s pr) nxt (steps + 1)).events,
                           FinalEvent.finished sf⟩ := by
                        rw [← hout]
                      have := ih (mergeResult schema s pr) nxt (steps + 1) _ sf hrec
                      rw [this]
                      rfl

theorem run_finished_replay (g : Graph) (schema : Schema) (cap : Nat) (init : Snapshot)
    (evs : List StepEvent) (sf : Snapshot)
    (h : run g schema cap init = ⟨evs, FinalEvent.finished sf⟩) :
    sf = replayEvents schema evs init := by
  cases hep : g.entryPoint with
  | none => rw [run, hep] at h; simp at h
  | some e =>
      rw [run, hep] at h; dsimp only at h
      exact loop_finished_replay g schema cap init e 0 evs sf h

theorem runToCompletionLoop_eq (g : Graph) (schema : Schema) :
    ∀ (fuel : Nat) (s : Snapshot) (cur : String) (steps : Nat),
      runToCompletionLoop g schema fuel s cur steps =
        outcomeToExcept (loop g schema fuel s cur steps).outcome := by
  intro fuel
  induction fuel with
  | zero => intro s cur steps; rfl
  | succ fuel ih =>
      intro s cur steps
      simp only [runToCompletionLoop, loop]
      cases lookupAssoc g.nodes cur with
      | none => rfl
      | some nodeFn =>
          dsimp only
          cases nodeFn s with
          | none => rfl
          | some pr =>
              dsimp only
              cases resolveNext g cur (mergeResult schema s pr) with
              | error e => rfl
              | ok t =>
                  cases t with
                  | terminal => rfl
                  | node nxt => exact ih (mergeResult schema s pr) nxt (steps + 1)

theorem runToCompletion_eq_outcome (g : Graph) (schema : Schema) (cap : Nat)
    (init : Snapshot) :
    runToCompletion g schema cap init = outcomeToExcept (run g schema cap init).outcome := by
  cases hep : g.entryPoint with
  | none => rw [runToCompletion, run, hep]; rfl
  | some e =>
      rw [runToCompletion, run, hep]
      exact runToCompletionLoop_eq g schema cap init e 0

theorem map_step_getLast?_ne_final (l : List StepEvent) (sf : Snapshot) :
    (l.map fun ev => StreamEvent.step ev.node ev.pr).getLast? ≠
      some (StreamEvent.final sf) := by
  rw [List.getLast?_map]
  cases l.getLast? with
  | none => simp
  | some ev => simp

theorem lookupAssoc_isSome_mem {α : Type} :
    ∀ (l : List (String × α)) (k : String),
      (lookupAssoc l k).isSome = true → ∃ v, (k, v) ∈ l := by
  intro l
  induction l with
  | nil => intro k h; simp [lookupAssoc] at h
  | cons hd rest ih =>
      intro k h
      obtain ⟨k', v'⟩ := hd
      by_cases hk : k' = k
      · subst hk; exact ⟨v', List.mem_cons_self _ _⟩
      · simp only [lookupAssoc, if_neg hk] at h
        obtain ⟨v, hv⟩ := ih k h
        exact ⟨v, List.mem_cons_of_mem _ hv⟩

theorem mem_lookupAssoc_isSome {α : Type} :
    ∀ (l : List (String × α)) (k : String) (v : α),
      (k, v) ∈ l → (lookupAssoc l k).isSome = true := by
  intro l
  induction l with
  | nil => intro k v h; simp at h
  | cons hd rest ih =>
      intro k v h
      obtain ⟨k', v'⟩ := hd
      by_cases hk : k' = k
      · simp [lookupAssoc, hk]
      · rcases List.mem_cons.mp h with heq | hmem
        · exact absurd (congrArg Prod.fst heq).symm hk
        · simp only [lookupAssoc, if_neg hk]
          exact ih k v hmem

theorem findSome?_isSome_of_mem {α β : Type} (f : α → Option β) :
    ∀ (l : List α) (a : α) (b : β), a ∈ l → f a = some b →
      ∃ c, l.findSome? f = some c := by
  intro l
  induction l with
  | nil => intro a b h; simp at h
  | cons hd rest ih =>
      intro a b hmem hfa
      rcases List.mem_cons.mp hmem with heq | hmem'
      · subst heq
        exact ⟨b, by simp [List.findSome?_cons, hfa]⟩
      · cases hhd : f hd with
        | some c => exact ⟨c, by simp [List.findSome?_cons, hhd]⟩
        | none =>
            obtain ⟨c, hc⟩ := ih a b hmem' hfa
            exact ⟨c, by simp [List.findSome?_cons, hhd, hc]⟩

theorem findAmbiguous_isSome (g : Graph) (n : String)
    (h1 : (lookupAssoc g.edges n).isSome = true)
    (h2 : (lookupAssoc g.condEdges n).isSome = true) :
    ∃ m, findAmbiguous g = some m := by
  obtain ⟨ce, hce⟩ := lookupAssoc_isSome_mem g.condEdges n h2
  exact findSome?_isSome_of_mem _ g.condEdges (n, ce) n hce (by simp [h1])

theorem findAmbiguous_none_of_no_overlap (g : Graph)
    (h : ∀ n, ¬((lookupAssoc g.edges n).isSome = true ∧
               (lookupAssoc g.condEdges n).isSome = true)) :
    findAmbiguous g = none := by
  rw [findAmbiguous, List.findSome?_eq_none_iff]
  intro ce hce
  have hcond : (lookupAssoc g.condEdges ce.1).isSome = true :=
    mem_lookupAssoc_isSome g.condEdges ce.1 ce.2 hce
  have hedge : ¬((lookupAssoc g.edges ce.1).isSome = true) := fun he => h ce.1 ⟨he, hcond⟩
  simp [hedge]

theorem validate_ambiguous_of_findAmbiguous (g : Graph) (m : String)
    (h : findAmbiguous g = some m) :
    validate g = Except.error (GraphError.ambiguousRouting m) := by
  rw [validate, h]

theorem flatten_length_of_le_one {α : Type} :
    ∀ ls : List (List α), (∀ l ∈ ls, l.length ≤ 1) →
      ls.flatten.length = (ls.filter fun l => !l.isEmpty).length := by
  intro ls
  induction ls with
  | nil => intro _; rfl
  | cons l rest ih =>
      intro h
      have hrest := ih fun x hx => h x (List.mem_cons_of_mem _ hx)
      cases l with
      | nil => simpa [List.flatten_cons] using hrest
      | cons a t =>
          have hl := h (a :: t) (List.mem_cons_self _ _)
          have ht : t = [] := by
            cases t with
            | nil => rfl
            | cons b u => simp at hl
          subst ht
          simpa [List.flatten_cons] using hrest

end LangGraph

namespace LangGraph

/-- Claim C1: for every validated graph, initial state, and step cap, a
run never loops forever — it either finishes with the final merged
snapshot or fails with an error; and the 2-node simulation cycle whose
router never returns the terminating label aborts with
IterationLimitExceeded at cap 100, after exactly 100 executed steps. -/
theorem run_terminates_and_caps :
    (∀ (g : Graph) (schema : Schema) (cap : Nat) (init : Snapshot),
       validate g = Except.ok () →
       (∃ sf, (run g schema cap init).outcome = FinalEvent.finished sf ∧
              sf = replayEvents schema (run g schema cap init).events init) ∨
       (∃ e, (run g schema cap init).outcome = FinalEvent.failed e))
    ∧ validate Simulation.cycleGraph = Except.ok ()
    ∧ (run Simulation.cycleGraph [] 100 emptySnap).outcome =
        FinalEvent.failed (RunError.iterationLimitExceeded 100)
    ∧ (run Simulation.cycleGraph [] 100 emptySnap).events.length = 100 := by
  refine ⟨?_, rfl, rfl, by decide⟩
  intro g schema cap init _
  cases hout : (run g schema cap init).outcome with
  | finished sf =>
      refine Or.inl ⟨sf, rfl, ?_⟩
      exact run_finished_replay g schema cap init _ sf (by rw [← hout])
  | failed e => exact Or.inr ⟨e, rfl⟩

/-- Witness for C1: the universally quantified part applied to the
concrete simulation cycle. -/
theorem run_terminates_and_caps_witness :
    (∃ sf, (run Simulation.cycleGraph [] 100 emptySnap).outcome = FinalEvent.finished sf ∧
           sf = replayEvents [] (run Simulation.cycleGraph [] 100 emptySnap).events emptySnap) ∨
    (∃ e, (run Simulation.cycleGraph [] 100 emptySnap).outcome = FinalEvent.failed e) :=
  run_terminates_and_caps.1 Simulation.cycleGraph [] 100 emptySnap rfl

/-- Claim C2: runs are deterministic — two runs from identical initial
states produce identical step-event sequences and identical outcomes,
and the merge operation is a pure function of the current snapshot, the
partial result, and the schema. -/
theorem run_deterministic (g : Graph) (schema : Schema) (cap : Nat)
    (s1 s2 : Snapshot) (h : s1 = s2) :
    (run g schema cap s1).events = (run g schema cap s2).events ∧
    (run g schema cap s1).outcome = (run g schema cap s2).outcome ∧
    ∀ (t1 t2 : Snapshot) (p1 p2 : PartResult), t1 = t2 → p1 = p2 →
      mergeResult schema t1 p1 = mergeResult schema t2 p2 := by
  subst h
  exact ⟨rfl, rfl, fun t1 t2 p1 p2 ht hp => by rw [ht, hp]⟩

/-- Witness for C2: determinism applied to the concrete simulation
cycle from the empty snapshot. -/
theorem run_deterministic_witness :
    (run Simulation.cycleGraph [] 100 emptySnap).events =
      (run Simulation.cycleGraph [] 100 emptySnap).events ∧
    (run Simulation.cycleGraph [] 100 emptySnap).outcome =
      (run Simulation.cycleGraph [] 100 emptySnap).outcome ∧
    ∀ (t1 t2 : Snapshot) (p1 p2 : PartResult), t1 = t2 → p1 = p2 →
      mergeResult [] t1 p1 = mergeResult [] t2 p2 :=
  run_deterministic Simulation.cycleGraph [] 100 emptySnap emptySnap rfl

/-- Claim C3: for a finished run and an Append field starting as a
sequence, the final value is that sequence followed by every element
the executed nodes contributed, in execution order; when each
contributing node contributes exactly one element and N nodes
contribute, the final length is the initial length plus N. -/
theorem append_field_final (g : Graph) (schema : Schema) (cap : Nat) (init : Snapshot)
    (evs : List StepEvent) (sf : Snapshot) (f : String) (xs0 : List Value) (N : Nat)
    (hstrat : strategyOf schema f = Strategy.Append)
    (hrun : run g schema cap init = ⟨evs, FinalEvent.finished sf⟩)
    (hinit : init f = some (Value.seq xs0))
    (hone : ∀ ev ∈ evs, (contribElems f ev.pr).length ≤ 1)
    (hN : (evs.filter fun ev => !(contribElems f ev.pr).isEmpty).length = N) :
    sf f = some (Value.seq (xs0 ++ (evs.map fun ev => contribElems f ev.pr).flatten)) ∧
    ∃ ys, sf f = some (Value.seq ys) ∧ ys.length = xs0.length + N := by
  have hsf := run_finished_replay g schema cap init evs sf hrun
  have hmain : sf f =
      some (Value.seq (xs0 ++ (evs.map fun ev => contribElems f ev.pr).flatten)) := by
    rw [hsf]
    exact replay_append_field schema f hstrat evs init xs0 hinit
  refine ⟨hmain, xs0 ++ (evs.map fun ev => contribElems f ev.pr).flatten, hmain, ?_⟩
  have hle : ∀ l ∈ evs.map fun ev => contribElems f ev.pr, l.length ≤ 1 := by
    intro l hl
    obtain ⟨ev, hev, rfl⟩ := List.mem_map.mp hl
    exact hone ev hev
  have hflat := flatten_length_of_le_one (evs.map fun ev => contribElems f ev.pr) hle
  rw [List.length_append, hflat, List.filter_map]
  rw [List.length_map]
  rw [← hN]
  congr 1

/-- Witness for C3: the single-node example graph contributes one
element to the Append field "log", which started empty. -/
theorem append_field_final_witness :
    sfW "log" =
      some (Value.seq ([] ++ (([⟨"n", prW⟩] : List StepEvent).map
        fun ev => contribElems "log" ev.pr).flatten)) ∧
    ∃ ys, sfW "log" = some (Value.seq ys) ∧
      ys.length = ([] : List Value).length + 1 :=
  append_field_final gW schemaW 5 initW [⟨"n", prW⟩] sfW "log" [] 1 rfl rfl rfl
    (by decide) rfl

/-- Claim C4: for a finished run and an Overwrite field, the final
value is the value written by the last executed node whose partial
result contained the field, or the initial value if no node wrote it. -/
theorem overwrite_field_final (g : Graph) (schema : Schema) (cap : Nat)
    (init : Snapshot) (evs : List StepEvent) (sf : Snapshot) (f : String)
    (hstrat : strategyOf schema f = Strategy.Overwrite)
    (hrun : run g schema cap init = ⟨evs, FinalEvent.finished sf⟩) :
    sf f = match runLastWrite? f evs with
           | some w => some w
           | none => init f := by
  rw [run_finished_replay g schema cap init evs sf hrun]
  exact replay_overwrite_field schema f hstrat evs init

/-- Witness for C4: the Overwrite field "out" of the example run holds
the value the node wrote. -/
theorem overwrite_field_final_witness :
    sfW "out" =
      match runLastWrite? "out" [(⟨"n", prW⟩ : StepEvent)] with
      | some w => some w
      | none => initW "out" :=
  overwrite_field_final gW schemaW 5 initW [⟨"n", prW⟩] sfW "out" rfl rfl

/-- Claim C5: a merge step leaves every field absent from the node's
partial result unchanged. -/
theorem merge_frame (schema : Schema) (s : Snapshot) (pr : PartResult) (x : String)
    (h : x ∉ pr.map Prod.fst) :
    mergeResult schema s pr x = s x :=
  mergeResult_notMem schema pr s x h

/-- Witness for C5: the example partial result does not touch the field
"other", which passes through unchanged. -/
theorem merge_frame_witness :
    mergeResult schemaW initW prW "other" = initW "other" :=
  merge_frame schemaW initW prW "other" (by decide)

/-- Claim C6: when a node's conditional router returns a label absent
from the mapping, the step aborts the run with RouterLabelError
carrying the node name and the label — the event for the executed node
is the last one and no fallback edge is taken. -/
theorem router_label_abort (g : Graph) (schema : Schema) (fuel : Nat) (s : Snapshot)
    (cur : String) (steps : Nat) (nodeFn : Snapshot → Option PartResult)
    (pr : PartResult) (ce : CondEdge) (lab : String)
    (hnode : lookupAssoc g.nodes cur = some nodeFn)
    (hpr : nodeFn s = some pr)
    (hnostatic : lookupAssoc g.edges cur = none)
    (hcond : lookupAssoc g.condEdges cur = some ce)
    (hlab : ce.router (mergeResult schema s pr) = some lab)
    (hunmapped : lookupAssoc ce.mapping lab = none) :
    loop g schema (fuel + 1) s cur steps =
      ⟨[⟨cur, pr⟩], FinalEvent.failed (RunError.routerLabelError cur lab)⟩ := by
  have hres : resolveNext g cur (mergeResult schema s pr) =
      Except.error (RunError.routerLabelError cur lab) := by
    simp [resolveNext, hnostatic, hcond, hlab, hunmapped]
  simp [loop, hnode, hpr, hres]

/-- Witness for C6: the example graph whose router returns "oops", a
label absent from its mapping, aborts with RouterLabelError. -/
theorem router_label_abort_witness :
    loop gBad [] 4 emptySnap "n" 0 =
      ⟨[⟨"n", []⟩], FinalEvent.failed (RunError.routerLabelError "n" "oops")⟩ :=
  router_label_abort gBad [] 3 emptySnap "n" 0 (fun _ => some []) []
    ⟨fun _ => some "oops", [("end", Target.terminal)]⟩ "oops" rfl rfl rfl rfl rfl rfl

/-- Claim C7: validation rejects, with AmbiguousRoutingError, every
graph in which some node has both a static and a conditional outgoing
edge; when no node has both, the ambiguity check passes, and the
simulation cycle — whose static and conditional edges originate from
different nodes — validates successfully. -/
theorem validate_rejects_ambiguous :
    (∀ (g : Graph) (n : String),
       (lookupAssoc g.edges n).isSome = true →
       (lookupAssoc g.condEdges n).isSome = true →
       ∃ m, validate g = Except.error (GraphError.ambiguousRouting m))
    ∧ (∀ g : Graph,
       (∀ n, ¬((lookupAssoc g.edges n).isSome = true ∧
               (lookupAssoc g.condEdges n).isSome = true)) →
       findAmbiguous g = none)
    ∧ validate Simulation.cycleGraph = Except.ok () := by
  refine ⟨?_, findAmbiguous_none_of_no_overlap, rfl⟩
  intro g n h1 h2
  obtain ⟨m, hm⟩ := findAmbiguous_isSome g n h1 h2
  exact ⟨m, validate_ambiguous_of_findAmbiguous g m hm⟩

/-- Witness for C7: the example graph whose node "a" has both edge
kinds is rejected with AmbiguousRoutingError. -/
theorem validate_rejects_ambiguous_witness :
    ∃ m, validate gAmb = Except.error (GraphError.ambiguousRouting m) :=
  validate_rejects_ambiguous.1 gAmb "a" rfl rfl

/-- Claim C8: `runToCompletion` returns exactly the final snapshot
carried by the last event of the Step Stream produced by the run —
draining the stream and taking the final event's snapshot agrees with
calling `runToCompletion`, and both fail together. -/
theorem runToCompletion_eq_stream_last (g : Graph) (schema : Schema) (cap : Nat)
    (init : Snapshot) (sf : Snapshot) :
    runToCompletion g schema cap init = Except.ok sf ↔
      (streamEvents g schema cap init).getLast? = some (StreamEvent.final sf) := by
  rw [runToCompletion_eq_outcome]
  simp only [streamEvents]
  cases hout : (run g schema cap init).outcome with
  | finished s0 =>
      dsimp only [outcomeToExcept]
      constructor
      · intro h
        injection h with h'
        subst h'
        rw [List.getLast?_concat]
      · intro h
        rw [List.getLast?_concat] at h
        injection h with h'
        injection h' with h''
        rw [h'']
  | failed e =>
      dsimp only [outcomeToExcept]
      constructor
      · intro h; cases h
      · intro h
        exact absurd h (map_step_getLast?_ne_final (run g schema cap init).events sf)

/-- Witness for C8: the equivalence applied to the example single-node
run. -/
theorem runToCompletion_eq_stream_last_witness :
    runToCompletion gW schemaW 5 initW = Except.ok sfW ↔
      (streamEvents gW schemaW 5 initW).getLast? = some (StreamEvent.final sfW) :=
  runToCompletion_eq_stream_last gW schemaW 5 initW sfW

end LangGraph

namespace Simulation

/-- Claim C9: on every non-empty message list `should_continue` returns
only "end" or "continue" — both declared in the simulation's
conditional mapping, so the undeclared-label error is unreachable in
this graph — it returns "end" whenever the list has more than 6
messages, and on the empty list it fails (the `messages[-1]` index). -/
theorem should_continue_router_safe :
    (∀ ms : List Message, ms ≠ [] →
       should_continue ms = some "end" ∨ should_continue ms = some "continue")
    ∧ (∀ (ms : List Message) (lab : String), should_continue ms = some lab →
         (LangGraph.lookupAssoc simulationMapping lab).isSome = true)
    ∧ (∀ ms : List Message, ms.length > 6 → should_continue ms = some "end")
    ∧ should_continue ([] : List Message) = none := by
  refine ⟨?_, ?_, ?_, rfl⟩
  · intro ms hne
    rw [should_continue]
    by_cases hlen : ms.length > 6
    · rw [if_pos hlen]; exact Or.inl rfl
    · rw [if_neg hlen]
      cases hg : ms.getLast? with
      | none => exact absurd (List.getLast?_eq_none_iff.mp hg) hne
      | some m =>
          dsimp only
          by_cases hc : content m = "FINISHED"
          · rw [if_pos hc]; exact Or.inl rfl
          · rw [if_neg hc]; exact Or.inr rfl
  · intro ms lab h
    rw [should_continue] at h
    by_cases hlen : ms.length > 6
    · rw [if_pos hlen] at h
      injection h with h'
      subst h'
      rfl
    · rw [if_neg hlen] at h
      cases hg : ms.getLast? with
      | none => rw [hg] at h; cases h
      | some m =>
          rw [hg] at h
          dsimp only at h
          by_cases hc : content m = "FINISHED"
          · rw [if_pos hc] at h
            injection h with h'
            subst h'
            rfl
          · rw [if_neg hc] at h
            injection h with h'
            subst h'
            rfl
  · intro ms hlen
    rw [should_continue, if_pos hlen]

/-- Witness for C9: a one-message list routes to a declared label, a
seven-message list routes to "end", and the mapping declares
"continue". -/
theorem should_continue_router_safe_witness :
    (should_continue [Message.human "hi"] = some "end" ∨
     should_continue [Message.human "hi"] = some "continue") ∧
    (LangGraph.lookupAssoc simulationMapping "continue").isSome = true ∧
    should_continue [Message.human "a", Message.human "b", Message.human "c",
      Message.human "d", Message.human "e", Message.human "f", Message.human "g"] =
      some "end" :=
  ⟨should_continue_router_safe.1 [Message.human "hi"] (by decide),
   should_continue_router_safe.2.1 [Message.human "hi"] "continue" rfl,
   should_continue_router_safe.2.2.1
     [Message.human "a", Message.human "b", Message.human "c", Message.human "d",
      Message.human "e", Message.human "f", Message.human "g"] (by decide)⟩

/-- Claim C10: `_swap_roles` preserves length, sends every AI message
to a human message with the same content and every other message to an
AI message with the same content, and is an involution on lists that
contain only AI and human messages. -/
theorem swap_roles_props :
    (∀ ms : List Message, (_swap_roles ms).length = ms.length)
    ∧ (∀ (ms : List Message) (i : Nat) (h1 : i < ms.length)
         (h2 : i < (_swap_roles ms).length),
         (_swap_roles ms).get ⟨i, h2⟩ =
           if isAI (ms.get ⟨i, h1⟩) then Message.human (content (ms.get ⟨i, h1⟩))
           else Message.ai (content (ms.get ⟨i, h1⟩)))
    ∧ (∀ ms : List Message, (∀ m ∈ ms, isAI m = true ∨ isHuman m = true) →
         _swap_roles (_swap_roles ms) = ms) := by
  refine ⟨?_, ?_, ?_⟩
  · intro ms; simp [_swap_roles]
  · intro ms i h1 h2
    simp [_swap_roles]
  · intro ms
    induction ms with
    | nil => intro _; rfl
    | cons m rest ih =>
        intro h
        have hm := h m (List.mem_cons_self _ _)
        have ih' := ih fun x hx => h x (List.mem_cons_of_mem _ hx)
        cases m with
        | ai c =>
            simp only [_swap_roles] at ih'
            simp only [_swap_roles, List.map_cons, isAI, content, if_true]
            simp [-List.map_map]
            exact ih'
        | human c =>
            simp only [_swap_roles] at ih'
            simp only [_swap_roles, List.map_cons, isAI, content]
            simp [-List.map_map]
            exact ih'
        | system c =>
            rcases hm with h1 | h1 <;> simp [isAI, isHuman] at h1

/-- Witness for C10: swapping twice restores a concrete AI/human
list. -/
theorem swap_roles_props_witness :
    (_swap_roles [Message.ai "x", Message.human "y"]).length =
      ([Message.ai "x", Message.human "y"] : List Message).length ∧
    _swap_roles (_swap_roles [Message.ai "x", Message.human "y"]) =
      [Message.ai "x", Message.human "y"] :=
  ⟨swap_roles_props.1 [Message.ai "x", Message.human "y"],
   swap_roles_props.2.2 [Message.ai "x", Message.human "y"] (by decide)⟩

end Simulation
